import Mathlib

/-!
Shallow embedding of the MirrorMan pipeline (src/process_links.py) and
verification of the specification claims about it.

The script resolves each source spec by fetching it as a URL through a
browser (the fetch itself is external; it is modelled as an oracle
`String → Option String`), re-applies Base64 detection to the fetched
body, merges the resolved contents of one job, deduplicates lines and
re-encodes the result as Base64.  Byte strings are modelled as `List Nat`
with values below 256, and Python string operations are embedded over
`List Char`.  Whitespace predicates model the ASCII part of the Python
definitions; every input handled by the claims is ASCII.
-/

set_option maxRecDepth 20000

/-- Whitespace characters of Python str.strip / str.split / regex \s
(ASCII part: space, tab, newline, carriage return, vertical tab, form feed). -/
def pyIsSpace (c : Char) : Bool :=
  c = ' ' || c = '\t' || c = '\n' || c = '\r' || c = '\x0b' || c = '\x0c'

/-- Embedding of Python str.strip() on a character list: drop whitespace
from the front, then from the back. -/
def stripList (l : List Char) : List Char :=
  List.rdropWhile pyIsSpace (List.dropWhile pyIsSpace l)

/-- Embedding of Python str.strip() on strings. -/
def pyStrip (s : String) : String :=
  String.mk (stripList s.data)

/-- Embedding of Python "".join(s.split()): removing every whitespace
character of the string. -/
def removeWS (l : List Char) : List Char :=
  l.filter (fun c => !pyIsSpace c)

/-- Line-break characters recognised by Python str.splitlines
(ASCII/latin part; the carriage-return/newline pair is handled separately). -/
def pyIsLineBreak (c : Char) : Bool :=
  c = '\n' || c = '\r' || c = '\x0b' || c = '\x0c' || c = '\x1c' || c = '\x1d' ||
  c = '\x1e' || c = '\x85' || c = '\u2028' || c = '\u2029'

/-- Embedding of Python str.splitlines() on a character list: terminators
are not kept, a trailing terminator produces no extra empty line, and
a carriage return followed by a newline counts as one terminator. -/
def splitlinesList : List Char → List (List Char)
  | [] => []
  | '\r' :: '\n' :: cs => [] :: splitlinesList cs
  | c :: cs =>
    if pyIsLineBreak c then [] :: splitlinesList cs
    else
      match splitlinesList cs with
      | [] => [[c]]
      | l :: ls => (c :: l) :: ls

/-- Embedding of Python str.splitlines() on strings. -/
def pySplitlines (s : String) : List String :=
  (splitlinesList s.data).map String.mk

/-- Embedding of Python str.split(sep) for a one-character separator:
every occurrence splits, and the empty string yields one empty part. -/
def splitCharList (sep : Char) : List Char → List (List Char)
  | [] => [[]]
  | x :: xs =>
    if x = sep then [] :: splitCharList sep xs
    else
      match splitCharList sep xs with
      | [] => [[x]]
      | y :: ys => (x :: y) :: ys

/-- Embedding of Python str.split(sep, 1) for a one-character separator:
`some (before, after)` when the separator occurs (split at its first
occurrence), `none` when it does not. -/
def splitOnceChar (sep : Char) : List Char → Option (List Char × List Char)
  | [] => none
  | x :: xs =>
    if x = sep then some ([], xs)
    else (splitOnceChar sep xs).map (fun p => (x :: p.1, p.2))

example : stripList " a b ".data = "a b".data := by decide
example : splitlinesList "x\n\n\n y".data = ["x".data, [], [], " y".data] := by decide
example : splitCharList '|' "a|b".data = ["a".data, "b".data] := by decide
example : splitOnceChar ',' "a,b,c".data = some ("a".data, "b,c".data) := by decide

/-- Alphabet of standard Base64, in encoding order. -/
def b64alphabet : List Char :=
  "ABCDEFGHIJKLMNOPQRSTUVWXYZabcdefghijklmnopqrstuvwxyz0123456789+/".data

/-- Character of standard Base64 encoding a 6-bit value. -/
def b64char (n : Nat) : Char :=
  b64alphabet.getD n 'A'

/-- Value of a standard Base64 alphabet character, none for characters
outside the alphabet (the padding character included). -/
def b64val (c : Char) : Option Nat :=
  if 'A' ≤ c ∧ c ≤ 'Z' then some (c.toNat - 65)
  else if 'a' ≤ c ∧ c ≤ 'z' then some (c.toNat - 71)
  else if '0' ≤ c ∧ c ≤ '9' then some (c.toNat + 4)
  else if c = '+' then some 62
  else if c = '/' then some 63
  else none

/-- Embedding of base64.b64encode on byte lists: three bytes become four
characters, with canonical '=' padding for a trailing group of one or
two bytes. -/
def b64encodeBytes : List Nat → List Char
  | [] => []
  | [x] => [b64char (x / 4), b64char (x % 4 * 16), '=', '=']
  | [x, y] => [b64char (x / 4), b64char (x % 4 * 16 + y / 16), b64char (y % 16 * 4), '=']
  | x :: y :: z :: rest =>
    b64char (x / 4) :: b64char (x % 4 * 16 + y / 16) :: b64char (y % 16 * 4 + z / 64) ::
      b64char (z % 64) :: b64encodeBytes rest

/-- Embedding of base64.b64decode with validate=True: the length must be
a multiple of four, all characters must be alphabet characters except
for at most two trailing padding characters, and (as in binascii in
non-strict mode) nonzero bits hidden under the padding are dropped
silently.  Inputs whose length is not a multiple of four are rejected,
matching the binascii incorrect-padding error. -/
def b64decodeChars : List Char → Option (List Nat)
  | [] => some []
  | a :: b :: c :: d :: rest =>
    match b64val a, b64val b with
    | some va, some vb =>
      if c = '=' then
        if d = '=' ∧ rest = [] then some [va * 4 + vb / 16] else none
      else
        match b64val c with
        | some vc =>
          if d = '=' then
            if rest = [] then some [va * 4 + vb / 16, vb % 16 * 16 + vc / 4] else none
          else
            match b64val d with
            | some vd =>
              (b64decodeChars rest).map
                (fun t => (va * 4 + vb / 16) :: (vb % 16 * 16 + vc / 4) :: (vc % 4 * 64 + vd) :: t)
            | none => none
        | none => none
    | _, _ => none
  | _ => none

/-- Characters allowed by the regular expression of is_base64:
the Base64 alphabet, the padding character and whitespace. -/
def b64ClassChar (c : Char) : Bool :=
  ('A' ≤ c && c ≤ 'Z') || ('a' ≤ c && c ≤ 'z') || ('0' ≤ c && c ≤ '9') ||
  c = '+' || c = '/' || c = '=' || pyIsSpace c

/-- Padding of is_base64: append '=' until the length is a multiple of four. -/
def b64pad (l : List Char) : List Char :=
  l ++ List.replicate ((4 - l.length % 4) % 4) '='

/-- Embedding of is_base64 from src/process_links.py: the stripped string
must be nonempty and match the character-class regular expression; then
all whitespace is removed, the result is padded to a multiple of four,
decoded with validation, re-encoded, and the re-encoding must equal the
padded cleaned input exactly. -/
def is_base64 (s : String) : Bool :=
  let stripped := stripList s.data
  if !stripped.isEmpty && stripped.all b64ClassChar then
    let padded := b64pad (removeWS s.data)
    match b64decodeChars padded with
    | some bytes => b64encodeBytes bytes == padded
    | none => false
  else false

example : b64encodeBytes [104, 105] = "aGk=".data := by decide
example : b64decodeChars "aGk=".data = some [104, 105] := by decide
example : is_base64 "aGk=" = true := by decide
example : is_base64 "QQ" = true := by decide
example : is_base64 "hello" = false := by decide
example : is_base64 "hello world" = false := by decide
example : is_base64 "" = false := by decide
example : is_base64 " aG Vs bG8= " = true := by decide

/-- Encoding of one character as UTF-8 bytes. -/
def utf8EncodeChar (c : Char) : List Nat :=
  let n := c.toNat
  if n < 128 then [n]
  else if n < 2048 then [192 + n / 64, 128 + n % 64]
  else if n < 65536 then [224 + n / 4096, 128 + n / 64 % 64, 128 + n % 64]
  else [240 + n / 262144, 128 + n / 4096 % 64, 128 + n / 64 % 64, 128 + n % 64]

/-- Encoding of a string as UTF-8 bytes, as Python str.encode. -/
def utf8Encode (s : String) : List Nat :=
  s.data.flatMap utf8EncodeChar

/-- Scalar value of a two-byte UTF-8 sequence, none when the continuation
byte is invalid (the leading byte is taken from [194, 224), so no
overlong encoding arises). -/
def utf8Scalar2 (b0 b1 : Nat) : Option Nat :=
  if 128 ≤ b1 ∧ b1 < 192 then some ((b0 - 192) * 64 + (b1 - 128)) else none

/-- Scalar value of a three-byte UTF-8 sequence, none when a continuation
byte is invalid, the encoding is overlong, or the value is a surrogate. -/
def utf8Scalar3 (b0 b1 b2 : Nat) : Option Nat :=
  if (128 ≤ b1 ∧ b1 < 192) ∧ (128 ≤ b2 ∧ b2 < 192) then
    let n := (b0 - 224) * 4096 + (b1 - 128) * 64 + (b2 - 128)
    if n < 2048 then none
    else if 55296 ≤ n ∧ n < 57344 then none
    else some n
  else none

/-- Scalar value of a four-byte UTF-8 sequence, none when a continuation
byte is invalid, the encoding is overlong, or the value is beyond the
Unicode range. -/
def utf8Scalar4 (b0 b1 b2 b3 : Nat) : Option Nat :=
  if (128 ≤ b1 ∧ b1 < 192) ∧ (128 ≤ b2 ∧ b2 < 192) ∧ (128 ≤ b3 ∧ b3 < 192) then
    let n := (b0 - 240) * 262144 + (b1 - 128) * 4096 + (b2 - 128) * 64 + (b3 - 128)
    if n < 65536 then none
    else if 1114111 < n then none
    else some n
  else none

/-- Decoding of the first UTF-8 sequence of a byte list given its leading
byte and the remaining bytes: the scalar value and the bytes after the
sequence, none on any invalid sequence. -/
def utf8DecodeOne (b0 : Nat) (rest : List Nat) : Option (Nat × List Nat) :=
  if b0 < 128 then some (b0, rest)
  else if b0 < 194 then none
  else if b0 < 224 then
    match rest with
    | b1 :: rest1 => (utf8Scalar2 b0 b1).map (fun n => (n, rest1))
    | [] => none
  else if b0 < 240 then
    match rest with
    | b1 :: b2 :: rest2 => (utf8Scalar3 b0 b1 b2).map (fun n => (n, rest2))
    | _ => none
  else if b0 < 245 then
    match rest with
    | b1 :: b2 :: b3 :: rest3 => (utf8Scalar4 b0 b1 b2 b3).map (fun n => (n, rest3))
    | _ => none
  else none

/-- Recursion worker for UTF-8 decoding; the fuel argument makes the
recursion structural and it never runs out when it is at least the
number of bytes, since every decoded sequence consumes at least one
byte. -/
def utf8DecodeFuel : Nat → List Nat → Option (List Char)
  | _, [] => some []
  | 0, _ :: _ => none
  | fuel + 1, b0 :: rest =>
    match utf8DecodeOne b0 rest with
    | some (n, rest2) => (utf8DecodeFuel fuel rest2).map (fun cs => Char.ofNat n :: cs)
    | none => none

/-- Strict UTF-8 decoding of a byte list, as Python bytes.decode: rejects
truncated sequences, bad continuation bytes, overlong encodings,
surrogate code points and code points beyond the Unicode range. -/
def utf8DecodeList (l : List Nat) : Option (List Char) :=
  utf8DecodeFuel l.length l

/-- Strict UTF-8 decoding of a byte list into a string. -/
def utf8Decode (l : List Nat) : Option String :=
  (utf8DecodeList l).map String.mk

example : utf8Encode "aé€" = [97, 195, 169, 226, 130, 172] := by decide
example : utf8Decode [97, 195, 169, 226, 130, 172] = some "aé€" := by decide
example : utf8Decode [255] = none := by decide
example : utf8Decode [237, 160, 128] = none := by decide
example : utf8Decode [192, 129] = none := by decide

/-- Test whether the first list is a prefix of the second. -/
def hasPrefixChars : List Char → List Char → Bool
  | [], _ => true
  | _ :: _, [] => false
  | p :: ps, x :: xs => p = x && hasPrefixChars ps xs

/-- Embedding of the Python substring test (pat in s) on character lists. -/
def hasSubChars (pat : List Char) : List Char → Bool
  | [] => hasPrefixChars pat []
  | x :: xs => hasPrefixChars pat (x :: xs) || hasSubChars pat xs

/-- Embedding of the Python substring test on strings. -/
def hasSubstr (s pat : String) : Bool :=
  hasSubChars pat.data s.data

/-- Helper for replaceChars: at a match of the nonempty pattern, emit the
replacement and continue after the matched occurrence, otherwise copy
one character; the fuel argument makes the recursion structural and is
always at least the list length at the call site, so it never runs out
for a nonempty pattern. -/
def replaceCharsFuel (pat rep : List Char) : Nat → List Char → List Char
  | _, [] => []
  | 0, l => l
  | fuel + 1, x :: xs =>
    if hasPrefixChars pat (x :: xs) then
      rep ++ replaceCharsFuel pat rep fuel ((x :: xs).drop pat.length)
    else x :: replaceCharsFuel pat rep fuel xs

/-- Embedding of Python str.replace for a nonempty pattern: scan from the
left, replace every non-overlapping occurrence, and continue scanning
after the replaced occurrence without reprocessing the replacement. -/
def replaceChars (pat rep l : List Char) : List Char :=
  replaceCharsFuel pat rep l.length l

/-- Embedding of Python str.replace on strings. -/
def replaceStr (s pat rep : String) : String :=
  String.mk (replaceChars pat.data rep.data s.data)

/-- Embedding of convert_github_url_to_raw from src/process_links.py. -/
def convert_github_url_to_raw (url : String) : String :=
  if hasSubstr url "github.com" && hasSubstr url "/blob/" then
    replaceStr (replaceStr url "github.com" "raw.githubusercontent.com") "/blob/" "/"
  else url

/-- Processing that get_processed_content_from_url applies to a fetched
body: when is_base64 accepts the body, the whitespace-cleaned body is
decoded with base64.b64decode (no validation, no re-padding, so a
cleaned length that is not a multiple of four raises and the source
fails) and then decoded as UTF-8; otherwise the body is returned
unchanged.  A raised exception is modelled as none. -/
def processBody (content : String) : Option String :=
  if is_base64 content then
    match b64decodeChars (removeWS content.data) with
    | some bytes => utf8Decode bytes
    | none => none
  else some content

/-- Embedding of get_processed_content_from_url from src/process_links.py:
the URL is converted to its GitHub raw form, fetched through the
external browser capability (the oracle), and the fetched body is
post-processed; any failure yields none. -/
def get_processed_content_from_url (fetch : String → Option String) (url : String) :
    Option String :=
  (fetch (convert_github_url_to_raw url)).bind processBody

example : convert_github_url_to_raw "https://github.com/u/r/blob/main/f.txt" =
    "https://raw.githubusercontent.com/u/r/main/f.txt" := by decide
example : convert_github_url_to_raw "https://example.com/a.txt" = "https://example.com/a.txt" := by
  decide
example : processBody "aGVsbG8=" = some "hello" := by decide
example : processBody "QQ" = none := by decide
example : processBody "hello" = some "hello" := by decide

/-- Artifact produced for one job: the output name with the merged raw
text and its Base64 re-encoding. -/
structure Artifact where
  name : String
  raw_text : String
  base64_text : String
deriving DecidableEq

/-- Embedding of dict.fromkeys deduplication: keep the first occurrence of
every element, in order, skipping elements already seen. -/
def dedupKeepFirst (seen : List String) : List String → List String
  | [] => []
  | x :: xs =>
    if x ∈ seen then dedupKeepFirst seen xs
    else x :: dedupKeepFirst (x :: seen) xs

/-- Embedding of the line-deduplication step of src/process_links.py:
drop the lines that are empty or whitespace-only, then keep the first
occurrence of every remaining line, in order. -/
def uniqueLines (total_lines : List String) : List String :=
  dedupKeepFirst [] (total_lines.filter (fun l => !(stripList l.data).isEmpty))

/-- Embedding of the artifact construction of src/process_links.py main:
strip each fetched content at its boundaries, join the contents with a
newline, split into lines, drop blank lines, deduplicate keeping first
occurrences, re-join with newlines, and encode the result as Base64. -/
def buildArtifact (output_name : String) (all_contents : List String) : Artifact :=
  let raw_combined := String.intercalate "\n" (all_contents.map pyStrip)
  let unique := uniqueLines (pySplitlines raw_combined)
  let final := String.intercalate "\n" unique
  ⟨output_name, final, String.mk (b64encodeBytes (utf8Encode final))⟩

/-- Result of reading one line of the job-definition file. -/
inductive ParsedLine where
  | blankOrComment
  | malformed
  | job (sources : List String) (output_name : String)
deriving DecidableEq

/-- Embedding of the line parsing of src/process_links.py main: strip the
line; skip empty lines and lines starting with the comment character;
split at the first comma (a line with no comma is malformed and skipped
with a warning); strip the two parts, split the first on the pipe
character and strip each source spec. -/
def parseLine (rawLine : String) : ParsedLine :=
  let line := stripList rawLine.data
  if line.isEmpty then ParsedLine.blankOrComment
  else if line.head? = some '#' then ParsedLine.blankOrComment
  else
    match splitOnceChar ',' line with
    | none => ParsedLine.malformed
    | some (a, b) =>
      ParsedLine.job ((splitCharList '|' (stripList a)).map (fun s => String.mk (stripList s)))
        (String.mk (stripList b))

/-- Resolved contents of the sources of one job, in order, with the
failed sources left out. -/
def resolveSources (fetch : String → Option String) (urls : List String) : List String :=
  urls.filterMap (get_processed_content_from_url fetch)

/-- Outcome of processing one line of the job-definition file. -/
inductive LineOutcome where
  | skipped
  | malformed
  | noContent (output_name : String)
  | produced (a : Artifact)
deriving DecidableEq

/-- Embedding of one iteration of the main loop of src/process_links.py:
parse the line, resolve every source, and either record the job as a
no-content failure (no artifact is built, no files are written) or
build the artifact.  Skipped and failed lines never abort the run. -/
def processLine (fetch : String → Option String) (rawLine : String) : LineOutcome :=
  match parseLine rawLine with
  | ParsedLine.blankOrComment => LineOutcome.skipped
  | ParsedLine.malformed => LineOutcome.malformed
  | ParsedLine.job urls name =>
    let all_contents := resolveSources fetch urls
    if all_contents.isEmpty then LineOutcome.noContent name
    else LineOutcome.produced (buildArtifact name all_contents)

/-- Embedding of the whole run of src/process_links.py main: process the
lines in order and collect the artifacts of the successful jobs. -/
def runJobs (fetch : String → Option String) (rawLines : List String) : List Artifact :=
  rawLines.filterMap (fun l =>
    match processLine fetch l with
    | LineOutcome.produced a => some a
    | _ => none)

/-- Kind assigned to a source spec by the classifier of the specification. -/
inductive SourceKind where
  | URL
  | BASE64_TEXT
  | PLAIN_TEXT
deriving DecidableEq

/-- Modelled from the spec: the SourceClassifier of section 4.1 is not
implemented in src/process_links.py (the script fetches every source
spec as a URL without classifying it); a spec with an http or https
prefix is a URL, otherwise a spec accepted by is_base64 is Base64, and
anything else is plain text. -/
def classify (s : String) : SourceKind :=
  if hasPrefixChars "http://".data s.data || hasPrefixChars "https://".data s.data then
    SourceKind.URL
  else if is_base64 s then SourceKind.BASE64_TEXT
  else SourceKind.PLAIN_TEXT

example : parseLine "a,b,c" = ParsedLine.job ["a"] "b,c" := by decide
example : parseLine " # comment" = ParsedLine.blankOrComment := by decide
example : parseLine "nocomma" = ParsedLine.malformed := by decide
example : parseLine "http://u, name " = ParsedLine.job ["http://u"] "name" := by decide
example : (buildArtifact "n" ["x\n\n\n y \n"]).raw_text = "x\n y" := by decide
example : uniqueLines ["a", "b", "a", "c"] = ["a", "b", "c"] := by decide
example : classify "hello world" = SourceKind.PLAIN_TEXT := by decide
example : classify "aGVsbG8=" = SourceKind.BASE64_TEXT := by decide
example : classify "http://x" = SourceKind.URL := by decide
example : (buildArtifact "n" ["line1\nline2", "line1\nline2"]).raw_text = "line1\nline2" := by
  decide

theorem bval_bchar : ∀ n, n < 64 → b64val (b64char n) = some n := by decide

theorem bchar_ne_pad : ∀ n, n < 64 → b64char n ≠ '=' := by decide

theorem b64decode_encode :
    ∀ l : List Nat, (∀ x ∈ l, x < 256) → b64decodeChars (b64encodeBytes l) = some l
  | [], _ => rfl
  | [x], h => by
    have hx : x < 256 := h x (by simp)
    have hva := bval_bchar (x / 4) (by omega)
    have hvb := bval_bchar (x % 4 * 16) (by omega)
    show b64decodeChars [b64char (x / 4), b64char (x % 4 * 16), '=', '='] = some [x]
    simp only [b64decodeChars, hva, hvb, if_pos rfl, and_self, if_true, Option.some.injEq,
      List.cons.injEq, and_true]
    omega
  | [x, y], h => by
    have hx : x < 256 := h x (by simp)
    have hy : y < 256 := h y (by simp)
    have hva := bval_bchar (x / 4) (by omega)
    have hvb := bval_bchar (x % 4 * 16 + y / 16) (by omega)
    have hvc := bval_bchar (y % 16 * 4) (by omega)
    have hc := bchar_ne_pad (y % 16 * 4) (by omega)
    show b64decodeChars
        [b64char (x / 4), b64char (x % 4 * 16 + y / 16), b64char (y % 16 * 4), '='] = some [x, y]
    simp only [b64decodeChars, hva, hvb, hvc, if_neg hc, if_pos rfl, if_true, Option.some.injEq,
      List.cons.injEq, and_true]
    omega
  | x :: y :: z :: rest, h => by
    have hx : x < 256 := h x (by simp)
    have hy : y < 256 := h y (by simp)
    have hz : z < 256 := h z (by simp)
    have ih := b64decode_encode rest (fun a ha => h a (by simp [ha]))
    have hva := bval_bchar (x / 4) (by omega)
    have hvb := bval_bchar (x % 4 * 16 + y / 16) (by omega)
    have hvc := bval_bchar (y % 16 * 4 + z / 64) (by omega)
    have hvd := bval_bchar (z % 64) (by omega)
    have hc := bchar_ne_pad (y % 16 * 4 + z / 64) (by omega)
    have hd := bchar_ne_pad (z % 64) (by omega)
    show b64decodeChars (b64char (x / 4) :: b64char (x % 4 * 16 + y / 16) ::
        b64char (y % 16 * 4 + z / 64) :: b64char (z % 64) :: b64encodeBytes rest) =
      some (x :: y :: z :: rest)
    simp only [b64decodeChars, hva, hvb, hvc, hvd, if_neg hc, if_neg hd, ih, Option.map_some',
      Option.some.injEq, List.cons.injEq]
    exact ⟨by omega, by omega, by omega, trivial⟩

theorem b64encode_length_mod :
    ∀ l : List Nat, (b64encodeBytes l).length % 4 = 0
  | [] => rfl
  | [x] => by simp [b64encodeBytes]
  | [x, y] => by simp [b64encodeBytes]
  | x :: y :: z :: rest => by
    have ih := b64encode_length_mod rest
    simp only [b64encodeBytes, List.length_cons]
    omega

theorem bchar_class : ∀ n : Nat, b64ClassChar (b64char n) = true ∧ pyIsSpace (b64char n) = false ∧
    b64char n ≠ ':' := by
  intro n
  by_cases h : n < 64
  · revert h
    revert n
    decide
  · have hA : b64char n = 'A' := by
      unfold b64char
      apply List.getD_eq_default
      have : b64alphabet.length = 64 := by decide
      omega
    rw [hA]
    decide

theorem b64encode_chars :
    ∀ l : List Nat, ∀ c ∈ b64encodeBytes l,
      b64ClassChar c = true ∧ pyIsSpace c = false ∧ c ≠ ':'
  | [], c, hc => by simp [b64encodeBytes] at hc
  | [x], c, hc => by
    simp only [b64encodeBytes, List.mem_cons, List.not_mem_nil, or_false] at hc
    rcases hc with h | h | h | h <;> subst h
    · exact bchar_class _
    · exact bchar_class _
    · decide
    · decide
  | [x, y], c, hc => by
    simp only [b64encodeBytes, List.mem_cons, List.not_mem_nil, or_false] at hc
    rcases hc with h | h | h | h <;> subst h
    · exact bchar_class _
    · exact bchar_class _
    · exact bchar_class _
    · decide
  | x :: y :: z :: w :: rest, c, hc => by
    have hmem : c = b64char (x / 4) ∨ c = b64char (x % 4 * 16 + y / 16) ∨
        c = b64char (y % 16 * 4 + z / 64) ∨ c = b64char (z % 64) ∨
        c ∈ b64encodeBytes (w :: rest) := by
      simpa only [b64encodeBytes, List.mem_cons] using hc
    rcases hmem with h | h | h | h | h
    · subst h; exact bchar_class _
    · subst h; exact bchar_class _
    · subst h; exact bchar_class _
    · subst h; exact bchar_class _
    · exact b64encode_chars (w :: rest) c h
  | [x, y, z], c, hc => by
    simp only [b64encodeBytes, List.mem_cons, List.not_mem_nil, or_false] at hc
    rcases hc with h | h | h | h <;> subst h <;> exact bchar_class _

theorem b64encode_ne_nil (x : Nat) (l : List Nat) : b64encodeBytes (x :: l) ≠ [] := by
  match l with
  | [] => simp [b64encodeBytes]
  | [_] => simp [b64encodeBytes]
  | _ :: _ :: _ => simp [b64encodeBytes]

theorem string_mk_data (s : String) : String.mk s.data = s := by
  cases s
  rfl

theorem char_valid_nat (c : Char) : c.toNat < 55296 ∨ (57343 < c.toNat ∧ c.toNat < 1114112) :=
  c.valid

theorem utf8EncodeChar_lt (c : Char) : ∀ b ∈ utf8EncodeChar c, b < 256 := by
  have hv := char_valid_nat c
  intro b hb
  simp only [utf8EncodeChar] at hb
  by_cases h1 : c.toNat < 128
  · rw [if_pos h1] at hb
    simp only [List.mem_cons, List.not_mem_nil, or_false] at hb
    omega
  · rw [if_neg h1] at hb
    by_cases h2 : c.toNat < 2048
    · rw [if_pos h2] at hb
      simp only [List.mem_cons, List.not_mem_nil, or_false] at hb
      rcases hb with h | h <;> omega
    · rw [if_neg h2] at hb
      by_cases h3 : c.toNat < 65536
      · rw [if_pos h3] at hb
        simp only [List.mem_cons, List.not_mem_nil, or_false] at hb
        rcases hb with h | h | h <;> omega
      · rw [if_neg h3] at hb
        simp only [List.mem_cons, List.not_mem_nil, or_false] at hb
        rcases hb with h | h | h | h <;> omega

theorem utf8EncodeChar_ne_nil (c : Char) : utf8EncodeChar c ≠ [] := by
  simp only [utf8EncodeChar]
  by_cases h1 : c.toNat < 128
  · rw [if_pos h1]; simp
  · rw [if_neg h1]
    by_cases h2 : c.toNat < 2048
    · rw [if_pos h2]; simp
    · rw [if_neg h2]
      by_cases h3 : c.toNat < 65536
      · rw [if_pos h3]; simp
      · rw [if_neg h3]; simp

theorem utf8DecodeOne_encodeChar (c : Char) (t : List Nat) :
    ∃ b0 r, utf8EncodeChar c ++ t = b0 :: r ∧ utf8DecodeOne b0 r = some (c.toNat, t) := by
  have hv := char_valid_nat c
  by_cases h1 : c.toNat < 128
  · refine ⟨c.toNat, t, ?_, ?_⟩
    · unfold utf8EncodeChar
      rw [if_pos h1, List.cons_append, List.nil_append]
    · unfold utf8DecodeOne
      rw [if_pos h1]
  · by_cases h2 : c.toNat < 2048
    · refine ⟨192 + c.toNat / 64, (128 + c.toNat % 64) :: t, ?_, ?_⟩
      · unfold utf8EncodeChar
        rw [if_neg h1, if_pos h2, List.cons_append, List.cons_append, List.nil_append]
      · have hs : utf8Scalar2 (192 + c.toNat / 64) (128 + c.toNat % 64) = some c.toNat := by
          unfold utf8Scalar2
          rw [if_pos (by constructor <;> omega)]
          congr 1
          omega
        unfold utf8DecodeOne
        rw [if_neg (by omega), if_neg (by omega), if_pos (by omega)]
        simp only [hs, Option.map_some']
    · by_cases h3 : c.toNat < 65536
      · refine ⟨224 + c.toNat / 4096, (128 + c.toNat / 64 % 64) :: (128 + c.toNat % 64) :: t,
          ?_, ?_⟩
        · unfold utf8EncodeChar
          rw [if_neg h1, if_neg h2, if_pos h3, List.cons_append, List.cons_append,
            List.cons_append, List.nil_append]
        · have hs : utf8Scalar3 (224 + c.toNat / 4096) (128 + c.toNat / 64 % 64)
              (128 + c.toNat % 64) = some c.toNat := by
            unfold utf8Scalar3
            rw [if_pos (by refine ⟨⟨by omega, by omega⟩, by omega, by omega⟩)]
            have harith : (224 + c.toNat / 4096 - 224) * 4096 +
                (128 + c.toNat / 64 % 64 - 128) * 64 + (128 + c.toNat % 64 - 128) = c.toNat := by
              omega
            rw [harith, if_neg (by omega), if_neg (by omega)]
          unfold utf8DecodeOne
          rw [if_neg (by omega), if_neg (by omega), if_neg (by omega), if_pos (by omega)]
          simp only [hs, Option.map_some']
      · refine ⟨240 + c.toNat / 262144, (128 + c.toNat / 4096 % 64) ::
          (128 + c.toNat / 64 % 64) :: (128 + c.toNat % 64) :: t, ?_, ?_⟩
        · unfold utf8EncodeChar
          rw [if_neg h1, if_neg h2, if_neg h3, List.cons_append, List.cons_append,
            List.cons_append, List.cons_append, List.nil_append]
        · have hs : utf8Scalar4 (240 + c.toNat / 262144) (128 + c.toNat / 4096 % 64)
              (128 + c.toNat / 64 % 64) (128 + c.toNat % 64) = some c.toNat := by
            unfold utf8Scalar4
            rw [if_pos (by refine ⟨⟨by omega, by omega⟩, ⟨by omega, by omega⟩, by omega,
              by omega⟩)]
            have harith : (240 + c.toNat / 262144 - 240) * 262144 +
                (128 + c.toNat / 4096 % 64 - 128) * 4096 + (128 + c.toNat / 64 % 64 - 128) * 64 +
                (128 + c.toNat % 64 - 128) = c.toNat := by
              omega
            rw [harith, if_neg (by omega), if_neg (by omega)]
          unfold utf8DecodeOne
          rw [if_neg (by omega), if_neg (by omega), if_neg (by omega), if_neg (by omega),
            if_pos (by omega)]
          simp only [hs, Option.map_some']

theorem utf8DecodeFuel_encodeChar (c : Char) (t : List Nat) (fuel : Nat) :
    utf8DecodeFuel (fuel + 1) (utf8EncodeChar c ++ t) =
      (utf8DecodeFuel fuel t).map (fun cs => c :: cs) := by
  obtain ⟨b0, r, heq, hone⟩ := utf8DecodeOne_encodeChar c t
  rw [heq, utf8DecodeFuel]
  simp only [hone, Char.ofNat_toNat]

theorem utf8DecodeFuel_encode (cs : List Char) :
    ∀ (fuel : Nat) (t : List Nat),
      utf8DecodeFuel (cs.length + fuel) (cs.flatMap utf8EncodeChar ++ t) =
        (utf8DecodeFuel fuel t).map (fun ds => cs ++ ds) := by
  induction cs with
  | nil =>
    intro fuel t
    simp only [List.length_nil, Nat.zero_add, List.flatMap_nil, List.nil_append]
    cases utf8DecodeFuel fuel t <;> simp
  | cons c cs ih =>
    intro fuel t
    have hlen : (c :: cs).length + fuel = (cs.length + fuel) + 1 := by
      simp [List.length_cons]
      omega
    rw [hlen, List.flatMap_cons, List.append_assoc, utf8DecodeFuel_encodeChar, ih]
    cases utf8DecodeFuel fuel t <;> simp

theorem utf8EncodeChar_length_pos (c : Char) : 1 ≤ (utf8EncodeChar c).length := by
  unfold utf8EncodeChar
  by_cases h1 : c.toNat < 128
  · rw [if_pos h1]; simp
  · rw [if_neg h1]
    by_cases h2 : c.toNat < 2048
    · rw [if_pos h2]; simp
    · rw [if_neg h2]
      by_cases h3 : c.toNat < 65536
      · rw [if_pos h3]; simp
      · rw [if_neg h3]; simp

theorem length_le_flatMap_encode (cs : List Char) :
    cs.length ≤ (cs.flatMap utf8EncodeChar).length := by
  induction cs with
  | nil => simp
  | cons c cs ih =>
    rw [List.flatMap_cons, List.length_append, List.length_cons]
    have := utf8EncodeChar_length_pos c
    omega

theorem utf8DecodeList_encode (cs : List Char) :
    utf8DecodeList (cs.flatMap utf8EncodeChar) = some cs := by
  unfold utf8DecodeList
  have hlen : (cs.flatMap utf8EncodeChar).length =
      cs.length + ((cs.flatMap utf8EncodeChar).length - cs.length) := by
    have := length_le_flatMap_encode cs
    omega
  rw [hlen]
  have := utf8DecodeFuel_encode cs ((cs.flatMap utf8EncodeChar).length - cs.length) []
  rw [List.append_nil] at this
  rw [this]
  simp [utf8DecodeFuel]

theorem utf8Decode_encode (s : String) : utf8Decode (utf8Encode s) = some s := by
  unfold utf8Decode utf8Encode
  rw [utf8DecodeList_encode, Option.map_some', string_mk_data]

theorem utf8Encode_lt (s : String) : ∀ b ∈ utf8Encode s, b < 256 := by
  intro b hb
  unfold utf8Encode at hb
  rw [List.mem_flatMap] at hb
  obtain ⟨c, _, hbc⟩ := hb
  exact utf8EncodeChar_lt c b hbc

theorem utf8Encode_ne_nil (s : String) (h : s.data ≠ []) : utf8Encode s ≠ [] := by
  unfold utf8Encode
  cases hd : s.data with
  | nil => exact absurd hd h
  | cons c cs =>
    rw [List.flatMap_cons]
    intro hcon
    exact utf8EncodeChar_ne_nil c (List.append_eq_nil.mp hcon).1

theorem stripList_idem (l : List Char) : stripList (stripList l) = stripList l := by
  unfold stripList
  have hX := (List.dropWhile_eq_self_iff (p := pyIsSpace)
    (l := List.dropWhile pyIsSpace l)).mp (List.dropWhile_idempotent (p := pyIsSpace) (l := l))
  have h1 : List.dropWhile pyIsSpace
      (List.rdropWhile pyIsSpace (List.dropWhile pyIsSpace l)) =
      List.rdropWhile pyIsSpace (List.dropWhile pyIsSpace l) := by
    rw [List.dropWhile_eq_self_iff]
    intro hl
    have hpre := List.rdropWhile_prefix pyIsSpace (List.dropWhile pyIsSpace l)
    have hlX : 0 < (List.dropWhile pyIsSpace l).length :=
      Nat.lt_of_lt_of_le hl (List.IsPrefix.length_le hpre)
    have hget := List.IsPrefix.getElem hpre
      (n := 0) (by simpa using hl)
    simp only [List.get_eq_getElem]
    rw [hget]
    have := hX hlX
    simpa using this
  rw [h1, List.rdropWhile_idempotent]

theorem pyStrip_idem (s : String) : pyStrip (pyStrip s) = pyStrip s := by
  unfold pyStrip
  rw [string_mk_data]
  exact congrArg String.mk (stripList_idem s.data)

theorem stripList_eq_self (l : List Char) (h : ∀ c ∈ l, pyIsSpace c = false) :
    stripList l = l := by
  unfold stripList
  have h1 : List.dropWhile pyIsSpace l = l := by
    rw [List.dropWhile_eq_self_iff]
    intro hl
    simp only [List.get_eq_getElem]
    have hmem : l[0] ∈ l := List.getElem_mem hl
    simp [h _ hmem]
  rw [h1, List.rdropWhile_eq_self_iff]
  intro hl
  have hmem : l.getLast hl ∈ l := List.getLast_mem hl
  simp [h _ hmem]

theorem dedupKeepFirst_sublist (seen : List String) (ls : List String) :
    (dedupKeepFirst seen ls).Sublist ls := by
  induction ls generalizing seen with
  | nil => simp [dedupKeepFirst]
  | cons x xs ih =>
    by_cases hx : x ∈ seen
    · simp only [dedupKeepFirst, if_pos hx]
      exact (ih seen).cons x
    · simp only [dedupKeepFirst, if_neg hx]
      exact (ih (x :: seen)).cons₂ x

theorem dedupKeepFirst_mem (seen : List String) (ls : List String) (x : String) :
    x ∈ dedupKeepFirst seen ls ↔ x ∈ ls ∧ x ∉ seen := by
  induction ls generalizing seen with
  | nil => simp [dedupKeepFirst]
  | cons y ys ih =>
    by_cases hy : y ∈ seen
    · simp only [dedupKeepFirst, if_pos hy, ih, List.mem_cons]
      constructor
      · rintro ⟨hm, hs⟩
        exact ⟨Or.inr hm, hs⟩
      · rintro ⟨hm | hm, hs⟩
        · subst hm; exact absurd hy hs
        · exact ⟨hm, hs⟩
    · simp only [dedupKeepFirst, if_neg hy, List.mem_cons, ih]
      by_cases hxy : x = y
      · subst hxy
        tauto
      · tauto

theorem dedupKeepFirst_nodup (seen : List String) (ls : List String) :
    (dedupKeepFirst seen ls).Nodup := by
  induction ls generalizing seen with
  | nil => simp [dedupKeepFirst]
  | cons y ys ih =>
    by_cases hy : y ∈ seen
    · simp only [dedupKeepFirst, if_pos hy]
      exact ih seen
    · simp only [dedupKeepFirst, if_neg hy]
      refine List.Nodup.cons ?_ (ih (y :: seen))
      intro hmem
      have := (dedupKeepFirst_mem (y :: seen) ys y).mp hmem
      exact this.2 (List.mem_cons_self y seen)

theorem splitOnceChar_isSome (sep : Char) (l : List Char) :
    (splitOnceChar sep l).isSome = true ↔ sep ∈ l := by
  induction l with
  | nil => simp [splitOnceChar]
  | cons x xs ih =>
    by_cases hx : x = sep
    · subst hx
      simp [splitOnceChar]
    · simp only [splitOnceChar, if_neg hx, List.mem_cons]
      cases h : splitOnceChar sep xs with
      | none =>
        rw [h] at ih
        simp only [h, Option.map_none', Option.isSome_none, Bool.false_eq_true, false_iff]
        simp only [Option.isSome_none, Bool.false_eq_true, false_iff] at ih
        rintro (rfl | hm)
        · exact hx rfl
        · exact ih hm
      | some p =>
        rw [h] at ih
        simp only [h, Option.map_some', Option.isSome_some, true_iff]
        simp only [Option.isSome_some, true_iff] at ih
        exact Or.inr ih

theorem splitOnceChar_append (sep : Char) (a b : List Char) (h : sep ∉ a) :
    splitOnceChar sep (a ++ sep :: b) = some (a, b) := by
  induction a with
  | nil => simp [splitOnceChar]
  | cons x xs ih =>
    have hx : x ≠ sep := by
      intro hcon
      exact h (hcon ▸ List.mem_cons_self x xs)
    have hxs : sep ∉ xs := fun hm => h (List.mem_cons_of_mem x hm)
    simp only [List.cons_append, splitOnceChar, if_neg hx, List.append_eq, ih hxs,
      Option.map_some']

theorem b64encode_stripList (l : List Nat) :
    stripList (b64encodeBytes l) = b64encodeBytes l :=
  stripList_eq_self _ (fun c hc => (b64encode_chars l c hc).2.1)

theorem b64encode_removeWS (l : List Nat) :
    removeWS (b64encodeBytes l) = b64encodeBytes l := by
  unfold removeWS
  rw [List.filter_eq_self]
  intro c hc
  simp [(b64encode_chars l c hc).2.1]

theorem b64encode_pad (l : List Nat) : b64pad (b64encodeBytes l) = b64encodeBytes l := by
  unfold b64pad
  rw [b64encode_length_mod l]
  simp

theorem b64encode_cons_ne_nil (l : List Nat) (hne : l ≠ []) : b64encodeBytes l ≠ [] := by
  cases l with
  | nil => exact absurd rfl hne
  | cons x xs => exact b64encode_ne_nil x xs

theorem is_base64_encode (l : List Nat) (hne : l ≠ []) (hlt : ∀ x ∈ l, x < 256) :
    is_base64 (String.mk (b64encodeBytes l)) = true := by
  have hdata : (String.mk (b64encodeBytes l)).data = b64encodeBytes l := rfl
  have hcond : (!(stripList (String.mk (b64encodeBytes l)).data).isEmpty &&
      (stripList (String.mk (b64encodeBytes l)).data).all b64ClassChar) = true := by
    rw [hdata, b64encode_stripList, Bool.and_eq_true]
    constructor
    · simp [List.isEmpty_iff, b64encode_cons_ne_nil l hne]
    · rw [List.all_eq_true]
      exact fun c hc => (b64encode_chars l c hc).1
  simp only [is_base64]
  rw [if_pos hcond, b64encode_removeWS, b64encode_pad, b64decode_encode l hlt]
  simp only [beq_self_eq_true]

theorem processBody_encode (l : List Nat) (hne : l ≠ []) (hlt : ∀ x ∈ l, x < 256) :
    processBody (String.mk (b64encodeBytes l)) = utf8Decode l := by
  have hdata : (String.mk (b64encodeBytes l)).data = b64encodeBytes l := rfl
  unfold processBody
  rw [if_pos (is_base64_encode l hne hlt), hdata, b64encode_removeWS, b64decode_encode l hlt]

theorem hasPrefixChars_mem :
    ∀ (p l : List Char), hasPrefixChars p l = true → ∀ c ∈ p, c ∈ l
  | [], _, _, c, hc => by simp at hc
  | _ :: _, [], h, _, _ => by simp [hasPrefixChars] at h
  | p :: ps, x :: xs, h, c, hc => by
    rw [hasPrefixChars, Bool.and_eq_true] at h
    obtain ⟨hpx, hrest⟩ := h
    have hpx2 : p = x := by simpa using hpx
    rcases List.mem_cons.mp hc with rfl | hcp
    · rw [hpx2]
      exact List.mem_cons_self x xs
    · exact List.mem_cons_of_mem x (hasPrefixChars_mem ps xs hrest c hcp)

theorem classify_encode (l : List Nat) (hne : l ≠ []) (hlt : ∀ x ∈ l, x < 256) :
    classify (String.mk (b64encodeBytes l)) = SourceKind.BASE64_TEXT := by
  have hdata : (String.mk (b64encodeBytes l)).data = b64encodeBytes l := rfl
  have hcolon : (':' : Char) ∉ b64encodeBytes l := by
    intro hc
    exact (b64encode_chars l ':' hc).2.2 rfl
  have h1 : hasPrefixChars "http://".data (b64encodeBytes l) = false := by
    cases hb : hasPrefixChars "http://".data (b64encodeBytes l) with
    | false => rfl
    | true => exact absurd (hasPrefixChars_mem _ _ hb ':' (by decide)) hcolon
  have h2 : hasPrefixChars "https://".data (b64encodeBytes l) = false := by
    cases hb : hasPrefixChars "https://".data (b64encodeBytes l) with
    | false => rfl
    | true => exact absurd (hasPrefixChars_mem _ _ hb ':' (by decide)) hcolon
  unfold classify
  rw [hdata, h1, h2]
  simp only [Bool.or_self, Bool.false_eq_true, if_false]
  rw [if_pos (is_base64_encode l hne hlt)]

/-- Claim C1, counterexample: the claim says a source spec classified
PLAIN_TEXT resolves to the spec string itself with no fetch and that
this path cannot fail.  In src/process_links.py every source spec is
fetched as a URL, so the spec "hello world" (neither a URL nor valid
Base64, hence PLAIN_TEXT) resolves to a failure under a failing fetch
oracle instead of resolving to "hello world". -/
theorem C1_counterexample :
    classify "hello world" = SourceKind.PLAIN_TEXT ∧
    get_processed_content_from_url (fun _ => none) "hello world" = none := by
  constructor
  · decide
  · rfl

/-- Claim C1, amended: a source spec classified PLAIN_TEXT is still
fetched as a URL (after GitHub raw conversion); when the fetch fails
the resolution fails, and when the fetch succeeds with a body that
is_base64 rejects, the resolved text is the fetched body unchanged,
not the spec string. -/
theorem C1_plain_text_fetched (fetch : String → Option String) (s body : String)
    (_hk : classify s = SourceKind.PLAIN_TEXT) :
    (fetch (convert_github_url_to_raw s) = none →
      get_processed_content_from_url fetch s = none) ∧
    (fetch (convert_github_url_to_raw s) = some body → is_base64 body = false →
      get_processed_content_from_url fetch s = some body) := by
  constructor
  · intro hf
    unfold get_processed_content_from_url
    rw [hf]
    rfl
  · intro hf hb
    unfold get_processed_content_from_url
    rw [hf]
    simp [processBody, hb]

/-- Claim C1, witness for the amended theorem at a concrete input. -/
theorem C1_amended_witness :
    ((fun (_ : String) => some "hello") (convert_github_url_to_raw "hello world") = none →
      get_processed_content_from_url (fun _ => some "hello") "hello world" = none) ∧
    ((fun (_ : String) => some "hello") (convert_github_url_to_raw "hello world") = some "hello" →
      is_base64 "hello" = false →
      get_processed_content_from_url (fun _ => some "hello") "hello world" = some "hello") :=
  C1_plain_text_fetched (fun _ => some "hello") "hello world" "hello" (by decide)

/-- Fetch oracle used by witnesses: one URL succeeds with plain text,
every other URL fails. -/
def fetchOkBad : String → Option String :=
  fun u => if u = "http://ok" then some "hello" else none

/-- Claim C2: for a job whose sources are one succeeding and one failing
source, the artifact equals the artifact built from the succeeding
source alone (the failed source contributes nothing), and the failure
neither aborts the run nor affects any other line of the run. -/
theorem C2_partial_failure_isolation (fetch : String → Option String)
    (line s_ok s_fail name c : String) (rest : List String)
    (hp : parseLine line = ParsedLine.job [s_ok, s_fail] name)
    (hok : get_processed_content_from_url fetch s_ok = some c)
    (hfail : get_processed_content_from_url fetch s_fail = none) :
    resolveSources fetch [s_ok, s_fail] = [c] ∧
    (buildArtifact name (resolveSources fetch [s_ok, s_fail])).raw_text =
      (buildArtifact name (resolveSources fetch [s_ok])).raw_text ∧
    runJobs fetch (line :: rest) = buildArtifact name [c] :: runJobs fetch rest := by
  have hres : resolveSources fetch [s_ok, s_fail] = [c] := by
    simp [resolveSources, List.filterMap_cons, hok, hfail]
  have hres1 : resolveSources fetch [s_ok] = [c] := by
    simp [resolveSources, List.filterMap_cons, hok]
  have hpl : processLine fetch line = LineOutcome.produced (buildArtifact name [c]) := by
    simp only [processLine, hp, hres, List.isEmpty_cons, Bool.false_eq_true, if_false]
  refine ⟨hres, by rw [hres, hres1], ?_⟩
  unfold runJobs
  rw [List.filterMap_cons]
  simp [hpl]

/-- Claim C2, witness at a concrete job line with one succeeding and one
failing source. -/
theorem C2_witness :
    resolveSources fetchOkBad ["http://ok", "http://bad"] = ["hello"] ∧
    (buildArtifact "out" (resolveSources fetchOkBad ["http://ok", "http://bad"])).raw_text =
      (buildArtifact "out" (resolveSources fetchOkBad ["http://ok"])).raw_text ∧
    runJobs fetchOkBad ("http://ok|http://bad,out" :: []) =
      buildArtifact "out" ["hello"] :: runJobs fetchOkBad [] :=
  C2_partial_failure_isolation fetchOkBad "http://ok|http://bad,out" "http://ok" "http://bad"
    "out" "hello" [] (by decide) (by decide) (by decide)

/-- Claim C3: for every artifact produced by the builder, decoding its
base64_text with standard Base64 yields exactly the UTF-8 bytes of its
raw_text; base64_text is computed by re-encoding raw_text, never copied
from an upstream source. -/
theorem C3_base64_roundtrip (name : String) (contents : List String) :
    b64decodeChars ((buildArtifact name contents).base64_text).data =
      some (utf8Encode ((buildArtifact name contents).raw_text)) := by
  have h : (buildArtifact name contents).base64_text =
      String.mk (b64encodeBytes (utf8Encode ((buildArtifact name contents).raw_text))) := rfl
  rw [h]
  exact b64decode_encode _ (utf8Encode_lt _)

/-- Claim C4: the deduplication stage keeps exactly the non-blank input
lines with later duplicates removed, comparing lines exactly and
preserving first-occurrence order (the output is a duplicate-free
sublist of the blank-filtered input with the same members), and
["a", "b", "a", "c"] yields ["a", "b", "c"]. -/
theorem C4_dedup_order (ls : List String) :
    (uniqueLines ls).Sublist (ls.filter (fun l => !(stripList l.data).isEmpty)) ∧
    (uniqueLines ls).Nodup ∧
    (∀ x, x ∈ uniqueLines ls ↔ x ∈ ls ∧ (stripList x.data).isEmpty = false) ∧
    uniqueLines ["a", "b", "a", "c"] = ["a", "b", "c"] := by
  refine ⟨dedupKeepFirst_sublist [] _, dedupKeepFirst_nodup [] _, ?_, by decide⟩
  intro x
  unfold uniqueLines
  rw [dedupKeepFirst_mem]
  simp [List.mem_filter]

/-- Claim C5, counterexample: the claim quantifies over every byte
sequence, but for the empty byte sequence the Base64 encoding is the
empty string, which is_base64 rejects, so classification yields
PLAIN_TEXT rather than BASE64_TEXT. -/
theorem C5_counterexample :
    b64encodeBytes [] = "".data ∧
    classify (String.mk (b64encodeBytes [])) = SourceKind.PLAIN_TEXT := by
  constructor
  · rfl
  · decide

/-- Claim C5, amended: for every nonempty byte sequence that is the UTF-8
encoding of a string t, the classifier maps the Base64 encoding of the
bytes to BASE64_TEXT (is_base64 accepts it), and the body-processing
step of the resolver decodes it back to exactly t, whose UTF-8 bytes
are the original byte sequence. -/
theorem C5_base64_roundtrip_nonempty (t : String) (h : t.data ≠ []) :
    classify (String.mk (b64encodeBytes (utf8Encode t))) = SourceKind.BASE64_TEXT ∧
    is_base64 (String.mk (b64encodeBytes (utf8Encode t))) = true ∧
    processBody (String.mk (b64encodeBytes (utf8Encode t))) = some t ∧
    utf8Encode t ≠ [] := by
  have hne := utf8Encode_ne_nil t h
  have hlt := utf8Encode_lt t
  refine ⟨classify_encode _ hne hlt, is_base64_encode _ hne hlt, ?_, hne⟩
  rw [processBody_encode _ hne hlt]
  exact utf8Decode_encode t

/-- Claim C5, witness for the amended theorem at a concrete string. -/
theorem C5_witness :
    classify (String.mk (b64encodeBytes (utf8Encode "hi"))) = SourceKind.BASE64_TEXT ∧
    is_base64 (String.mk (b64encodeBytes (utf8Encode "hi"))) = true ∧
    processBody (String.mk (b64encodeBytes (utf8Encode "hi"))) = some "hi" ∧
    utf8Encode "hi" ≠ [] :=
  C5_base64_roundtrip_nonempty "hi" (by decide)

/-- Claim C6, counterexample: the claim says the content "x\n\n\n y \n"
built alone yields raw_text lines ["x", "y"], but the code trims only
at the content boundary and applies no per-line trimming, so the
interior line " y" keeps its leading space and the lines are
["x", " y"], not ["x", "y"]. -/
theorem C6_counterexample :
    pySplitlines ((buildArtifact "out" ["x\n\n\n y \n"]).raw_text) = ["x", " y"] ∧
    pySplitlines ((buildArtifact "out" ["x\n\n\n y \n"]).raw_text) ≠ ["x", "y"] := by
  constructor
  · decide
  · decide

/-- Claim C6, amended: building an artifact from the single content
"x\n\n\n y \n" yields raw_text "x\n y": the content is trimmed only at
its leading and trailing boundary, whitespace-only lines are dropped,
and no per-line trimming is applied to interior lines, so the lines
are exactly ["x", " y"]. -/
theorem C6_boundary_trim (name : String) :
    (buildArtifact name ["x\n\n\n y \n"]).raw_text = "x\n y" ∧
    pySplitlines ((buildArtifact name ["x\n\n\n y \n"]).raw_text) = ["x", " y"] := by
  constructor
  · rfl
  · rfl

/-- Claim C7: a job in which every source fails to resolve builds no
artifact (the line outcome is the no-content job failure carrying the
output name, so no files are written for it), and the remaining lines
of the run are processed exactly as they would be without the failed
job. -/
theorem C7_no_content (fetch : String → Option String) (line : String) (urls : List String)
    (name : String) (rest : List String)
    (hp : parseLine line = ParsedLine.job urls name)
    (hfail : ∀ u ∈ urls, get_processed_content_from_url fetch u = none) :
    processLine fetch line = LineOutcome.noContent name ∧
    runJobs fetch (line :: rest) = runJobs fetch rest := by
  have hres : resolveSources fetch urls = [] := by
    unfold resolveSources
    rw [List.filterMap_eq_nil_iff]
    exact hfail
  have hpl : processLine fetch line = LineOutcome.noContent name := by
    simp only [processLine, hp, hres, List.isEmpty_nil, if_true]
  refine ⟨hpl, ?_⟩
  unfold runJobs
  rw [List.filterMap_cons]
  simp [hpl]

/-- Claim C7, witness at a concrete line whose only source fails. -/
theorem C7_witness :
    processLine (fun _ => none) "http://a,out" = LineOutcome.noContent "out" ∧
    runJobs (fun _ => none) ("http://a,out" :: []) = runJobs (fun _ => none) [] :=
  C7_no_content (fun _ => none) "http://a,out" ["http://a"] "out" []
    (by decide) (fun _ _ => rfl)

/-- Claim C8, counterexample: the claim says a line is processed as a job
if and only if it contains exactly one comma, but src/process_links.py
splits with a maximum of one split, so the line "a,b,c" with two commas
is processed as a job with output name "b,c" rather than skipped. -/
theorem C8_counterexample :
    parseLine "a,b,c" = ParsedLine.job ["a"] "b,c" ∧
    ("a,b,c".data.filter (fun ch => ch = ',')).length = 2 := by
  constructor
  · decide
  · decide

/-- Claim C8, amended: a non-blank, non-comment line is processed as a job
if and only if it contains at least one comma, splitting at the first
comma; a line with no comma is skipped as malformed with a warning and
does not abort the run. -/
theorem C8_first_comma (l a b : String)
    (h1 : stripList l.data ≠ [])
    (h2 : (stripList l.data).head? ≠ some '#')
    (h3 : ',' ∉ a.data) :
    ((∃ ss n, parseLine l = ParsedLine.job ss n) ↔ ',' ∈ stripList l.data) ∧
    splitOnceChar ',' (a.data ++ ',' :: b.data) = some (a.data, b.data) := by
  refine ⟨?_, splitOnceChar_append ',' a.data b.data h3⟩
  cases hsp : splitOnceChar ',' (stripList l.data) with
  | none =>
    have hpl : parseLine l = ParsedLine.malformed := by
      simp only [parseLine]
      rw [if_neg (by simpa [List.isEmpty_iff] using h1), if_neg h2, hsp]
    constructor
    · rintro ⟨ss, n, hj⟩
      rw [hpl] at hj
      simp at hj
    · intro hmem
      have hsome := (splitOnceChar_isSome ',' (stripList l.data)).mpr hmem
      rw [hsp] at hsome
      simp at hsome
  | some p =>
    obtain ⟨a', b'⟩ := p
    have hpl : parseLine l = ParsedLine.job
        ((splitCharList '|' (stripList a')).map (fun s => String.mk (stripList s)))
        (String.mk (stripList b')) := by
      simp only [parseLine]
      rw [if_neg (by simpa [List.isEmpty_iff] using h1), if_neg h2, hsp]
    constructor
    · intro _
      exact (splitOnceChar_isSome ',' (stripList l.data)).mp (by rw [hsp]; rfl)
    · intro _
      exact ⟨_, _, hpl⟩

/-- Claim C8, witness for the amended theorem at a concrete line. -/
theorem C8_witness :
    ((∃ ss n, parseLine "x,y" = ParsedLine.job ss n) ↔ ',' ∈ stripList "x,y".data) ∧
    splitOnceChar ',' ("x".data ++ ',' :: "y".data) = some ("x".data, "y".data) :=
  C8_first_comma "x,y" "x" "y" (by decide) (by decide) (by decide)

/-- Claim C9: a URL containing both "github.com" and "/blob/" is fetched
at the URL with "github.com" replaced by "raw.githubusercontent.com"
and "/blob/" replaced by "/"; every other URL is fetched unchanged;
and the conversion maps a concrete GitHub blob URL to its raw form. -/
theorem C9_github_url_conversion (fetch : String → Option String) (url : String)
    (hg : hasSubstr url "github.com" = true) (hb : hasSubstr url "/blob/" = true) :
    get_processed_content_from_url fetch url =
      (fetch (replaceStr (replaceStr url "github.com" "raw.githubusercontent.com")
        "/blob/" "/")).bind processBody ∧
    (∀ u : String, ¬(hasSubstr u "github.com" = true ∧ hasSubstr u "/blob/" = true) →
      get_processed_content_from_url fetch u = (fetch u).bind processBody) ∧
    convert_github_url_to_raw "https://github.com/user/repo/blob/main/file.txt" =
      "https://raw.githubusercontent.com/user/repo/main/file.txt" := by
  refine ⟨?_, ?_, by decide⟩
  · unfold get_processed_content_from_url convert_github_url_to_raw
    rw [if_pos (by rw [hg, hb]; rfl)]
  · intro u hu
    unfold get_processed_content_from_url convert_github_url_to_raw
    rw [if_neg (by rw [Bool.and_eq_true]; exact hu)]

/-- Claim C9, witness at a concrete GitHub blob URL. -/
theorem C9_witness :
    get_processed_content_from_url (fun _ => none)
        "https://github.com/user/repo/blob/main/file.txt" =
      ((fun (_ : String) => (none : Option String))
        (replaceStr (replaceStr "https://github.com/user/repo/blob/main/file.txt"
          "github.com" "raw.githubusercontent.com") "/blob/" "/")).bind processBody ∧
    (∀ u : String, ¬(hasSubstr u "github.com" = true ∧ hasSubstr u "/blob/" = true) →
      get_processed_content_from_url (fun _ => none) u =
        ((fun (_ : String) => (none : Option String)) u).bind processBody) ∧
    convert_github_url_to_raw "https://github.com/user/repo/blob/main/file.txt" =
      "https://raw.githubusercontent.com/user/repo/main/file.txt" :=
  C9_github_url_conversion (fun _ => none) "https://github.com/user/repo/blob/main/file.txt"
    (by decide) (by decide)

/-- Claim C10: every job field is stripped before any processing: the
output name and each pipe-separated source spec of a parsed job line
are invariant under further stripping, and the lines
"http://u, name " and "http://u,name" parse to the same job, so the
persisted file stem is the stripped output name. -/
theorem C10_stripped_fields (l : String) (ss : List String) (n : String)
    (h : parseLine l = ParsedLine.job ss n) :
    pyStrip n = n ∧ (∀ s ∈ ss, pyStrip s = s) ∧
    parseLine "http://u, name " = parseLine "http://u,name" := by
  refine ⟨?_, ?_, by decide⟩ <;>
  · simp only [parseLine] at h
    by_cases h1 : (stripList l.data).isEmpty
    · rw [if_pos h1] at h
      simp at h
    · rw [if_neg h1] at h
      by_cases h2 : (stripList l.data).head? = some '#'
      · rw [if_pos h2] at h
        simp at h
      · rw [if_neg h2] at h
        cases hsp : splitOnceChar ',' (stripList l.data) with
        | none =>
          rw [hsp] at h
          simp at h
        | some p =>
          obtain ⟨a', b'⟩ := p
          rw [hsp] at h
          have h' : ParsedLine.job
              ((splitCharList '|' (stripList a')).map (fun s => String.mk (stripList s)))
              (String.mk (stripList b')) = ParsedLine.job ss n := h
          injection h' with hss hn
          subst hss
          subst hn
          first
          | exact congrArg String.mk (stripList_idem b')
          | · intro s hs
              rw [List.mem_map] at hs
              obtain ⟨x, _, rfl⟩ := hs
              exact congrArg String.mk (stripList_idem x)

/-- Claim C10, witness at a concrete job line. -/
theorem C10_witness :
    pyStrip "out" = "out" ∧ (∀ s ∈ ["http://u"], pyStrip s = s) ∧
    parseLine "http://u, name " = parseLine "http://u,name" :=
  C10_stripped_fields "http://u,out" ["http://u"] "out" (by decide)
